import Mathlib

/-!
Verification of the lf-rs leader/follower state-replication library.

The definitions below are a shallow embedding of `src/lib.rs` and
`src/sequenced.rs`.  Rust's `u64` sequence numbers are modelled as `Nat`
(the library only ever increments them by one, so overflow is out of
reach for any execution we quantify over), an `mpsc` channel is modelled
as the list of messages it currently buffers together with a flag saying
whether the sending side would find the receiver connected, and the
polymorphic `Update` trait method `fn apply(&self, target: &mut S)` is
modelled as an explicit function `app : U → S → S`.
-/

namespace Lf

/-- Mirrors `struct State<S> { snapshot: S, seq: u64 }` from `lib.rs`. -/
structure State (S : Type) where
  snapshot : S
  seq : Nat
deriving DecidableEq, Repr

/-- Model of one `mpsc` channel as seen from the sending side: the queue of
buffered `(update, seq)` messages and whether the receiving end is still
connected.  `send` on a connected channel enqueues and succeeds; on a
disconnected channel it fails with `SendError`. -/
structure Chan (U : Type) where
  buf : List (U × Nat)
  connected : Bool
deriving DecidableEq, Repr

/-- Effect of a successful `Sender::send` on the channel: the message is
appended to the queue. -/
def sendMsg (m : U × Nat) (c : Chan U) : Chan U :=
  { c with buf := c.buf ++ [m] }

/-- Mirrors the broadcast loop in `Leader::update` / `Follower::apply`:
`for i in (0..self.subscribers.len()).rev() { if send fails { remove(i) } }`.
The first `Nat` argument is the loop index bound (the current `i + 1`). -/
def broadcastLoop (m : U × Nat) : Nat → List (Chan U) → List (Chan U)
  | 0, subs => subs
  | i + 1, subs =>
    match subs.get? i with
    | none => broadcastLoop m i subs
    | some c =>
      if c.connected then broadcastLoop m i (subs.set i (sendMsg m c))
      else broadcastLoop m i (subs.eraseIdx i)

/-- The full broadcast pass over a subscriber list, started at
`self.subscribers.len()` exactly as in the source. -/
def broadcast (m : U × Nat) (subs : List (Chan U)) : List (Chan U) :=
  broadcastLoop m subs.length subs

/-- Mirrors `struct Leader<S, U> { state: State<S>, subscribers: Vec<Sender> }`. -/
structure Leader (S U : Type) where
  state : State S
  subscribers : List (Chan U)
deriving DecidableEq

/-- Mirrors `Leader::new`: initial snapshot, sequence number 0, no subscribers. -/
def Leader.new (s : S) : Leader S U :=
  ⟨⟨s, 0⟩, []⟩

/-- Mirrors `Leader::update`: apply the update to the snapshot, increment the
sequence number, broadcast `(update, new_seq)` to all subscribers pruning the
disconnected ones, and return the new sequence number. -/
def Leader.update (app : U → S → S) (l : Leader S U) (u : U) : Leader S U × Nat :=
  let snapshot := app u l.state.snapshot
  let seq := l.state.seq + 1
  (⟨⟨snapshot, seq⟩, broadcast (u, seq) l.subscribers⟩, seq)

/-- Mirrors `Leader::follow`: push a fresh connected channel onto the
subscriber list; the new follower starts from a clone of the current state.
Returns the updated leader and the initial state handed to the follower. -/
def Leader.follow (l : Leader S U) : Leader S U × State S :=
  (⟨l.state, l.subscribers ++ [⟨[], true⟩]⟩, l.state)

/-- Iterated `Leader::update`, ignoring the returned sequence numbers. -/
def Leader.updates (app : U → S → S) (l : Leader S U) (us : List U) : Leader S U :=
  us.foldl (fun l u => (Leader.update app l u).1) l

/-- Mirrors `struct Sequenced<S> { value: S, seq: u64 }` from `sequenced.rs`. -/
structure Sequenced (T : Type) where
  value : T
  seq : Nat
deriving DecidableEq, Repr

/-- Mirrors `Sequenced::new`: wraps a value with sequence number 0. -/
def Sequenced.new (value : T) : Sequenced T :=
  ⟨value, 0⟩

/-- Mirrors `impl Update<Sequenced<S>> for Sequenced<U>`: apply the inner
update to the inner value, then overwrite the target's `seq` with the
update's `seq`. -/
def Sequenced.apply (app : U → S → S) (u : Sequenced U) (target : Sequenced S) : Sequenced S :=
  ⟨app u.value target.value, u.seq⟩

-- Junction lemmas for the reverse-indexed loops.

theorem get_at_junction (l₁ : List α) (a : α) (l₂ : List α) :
    (l₁ ++ a :: l₂).get? l₁.length = some a := by
  induction l₁ with
  | nil => rfl
  | cons b t ih => simpa using ih

theorem set_at_junction (l₁ : List α) (a b : α) (l₂ : List α) :
    (l₁ ++ a :: l₂).set l₁.length b = l₁ ++ b :: l₂ := by
  induction l₁ with
  | nil => rfl
  | cons c t ih => simp [ih]

theorem eraseIdx_at_junction (l₁ : List α) (a : α) (l₂ : List α) :
    (l₁ ++ a :: l₂).eraseIdx l₁.length = l₁ ++ l₂ := by
  induction l₁ with
  | nil => rfl
  | cons c t ih => simpa using ih

/-- Characterisation of the broadcast loop: running it over the prefix `pre`
(of any suffix-extended list) keeps exactly the connected channels, in order,
each with the message appended, and removes the disconnected ones. -/
theorem broadcastLoop_spec (m : U × Nat) (pre : List (Chan U)) :
    ∀ suf : List (Chan U),
      broadcastLoop m pre.length (pre ++ suf)
        = pre.filterMap (fun c => if c.connected then some (sendMsg m c) else none) ++ suf := by
  induction pre using List.reverseRecOn with
  | nil => intro suf; rfl
  | append_singleton pre c ih =>
    intro suf
    have hlen : (pre ++ [c]).length = pre.length + 1 := by simp
    have hsplit : (pre ++ [c]) ++ suf = pre ++ c :: suf := by simp
    rw [hlen, hsplit]
    show broadcastLoop m (pre.length + 1) (pre ++ c :: suf) = _
    rw [broadcastLoop, get_at_junction]
    by_cases hc : c.connected
    · simp only [hc, if_true]
      rw [set_at_junction, ih (sendMsg m c :: suf)]
      simp [hc]
    · simp only [hc, if_false]
      rw [eraseIdx_at_junction, ih suf]
      simp [hc]

/-- Broadcast characterisation at the full list. -/
theorem broadcast_eq_filterMap (m : U × Nat) (subs : List (Chan U)) :
    broadcast m subs
      = subs.filterMap (fun c => if c.connected then some (sendMsg m c) else none) := by
  have h := broadcastLoop_spec m subs []
  simpa [broadcast] using h

/-- Sequence number after iterated updates: each update adds exactly one. -/
theorem updates_seq (app : U → S → S) (us : List U) :
    ∀ l : Leader S U, (Leader.updates app l us).state.seq = l.state.seq + us.length := by
  induction us with
  | nil => intro l; simp [Leader.updates]
  | cons u t ih =>
    intro l
    have h := ih (Leader.update app l u).1
    simp only [Leader.updates, List.foldl_cons] at h ⊢
    rw [h]
    simp [Leader.update]
    omega

-- Follower

/-- Outcome of `std::sync::mpsc::TryRecvError`, returned by `Follower::refresh`. -/
inductive TryRecvErr where
  | empty
  | disconnected
deriving DecidableEq, Repr

/-- Mirrors `struct Follower<S, U>`: the private replica, the relay
subscriber channels, and the pending waiters `(pulse, target_seq)`.  The
in-flight `pulse::Pulse` values are modelled by ghost identifiers drawn from
the counter `nextPulse`, and `pulse.pulse()` is modelled by appending
`(id, target_seq, seq_when_pulsed)` to the ghost log `fired` (the inbound
`subscription` receiver is passed to `refresh` explicitly as the list of
buffered messages plus the connected flag). -/
structure Follower (S U : Type) where
  state : State S
  subscribers : List (Chan U)
  waiters : List (Nat × Nat)
  fired : List (Nat × Nat × Nat)
  nextPulse : Nat
deriving DecidableEq

/-- Mirrors `Follower::new`: the given initial state, no subscribers, no
waiters. -/
def Follower.new (st : State S) : Follower S U :=
  ⟨st, [], [], [], 0⟩

/-- Mirrors the loop in `Follower::check_waiters`:
`for i in (0..self.waiters.len()).rev() { if waiters[i].seq <= state.seq
{ remove(i); pulse(); } }`.  `cur` is the follower's current sequence number,
the first `Nat` argument is the loop index bound. -/
def checkLoop (cur : Nat) :
    Nat → List (Nat × Nat) → List (Nat × Nat × Nat) → List (Nat × Nat) × List (Nat × Nat × Nat)
  | 0, ws, fs => (ws, fs)
  | i + 1, ws, fs =>
    match ws.get? i with
    | none => checkLoop cur i ws fs
    | some w =>
      if w.2 ≤ cur then checkLoop cur i (ws.eraseIdx i) (fs ++ [(w.1, w.2, cur)])
      else checkLoop cur i ws fs

/-- Mirrors `Follower::check_waiters`. -/
def Follower.check_waiters (f : Follower S U) : Follower S U :=
  let r := checkLoop f.state.seq f.waiters.length f.waiters f.fired
  { f with waiters := r.1, fired := r.2 }

/-- Mirrors `Follower::apply`: apply the update to the snapshot, overwrite the
sequence number with the one carried by the message, re-broadcast the same
`(update, seq)` pair to the relay subscribers, then check the waiters. -/
def Follower.apply (app : U → S → S) (f : Follower S U) (u : U) (seq : Nat) : Follower S U :=
  Follower.check_waiters
    { f with
      state := ⟨app u f.state.snapshot, seq⟩
      subscribers := broadcast (u, seq) f.subscribers }

/-- Mirrors `Follower::refresh`: drain the subscription with `try_recv`,
applying every buffered message in order, and return the terminating
`TryRecvError` (`Empty` if the upstream is still connected, `Disconnected`
otherwise). -/
def Follower.refresh (app : U → S → S) :
    Follower S U → List (U × Nat) → Bool → Follower S U × TryRecvErr
  | f, [], connected => (f, if connected then .empty else .disconnected)
  | f, m :: rest, connected => Follower.refresh app (f.apply app m.1 m.2) rest connected

/-- Mirrors `Follower::refresh_blocking`: block on `recv` for one message
(`none` models blocking forever on an empty but still-connected channel;
`recv` fails only when the channel is disconnected), apply it, then behave
like `refresh`, mapping the final `Disconnected` to `Err(RecvError)`.  The
`Bool` in the result is `true` for `Ok(())` and `false` for `Err(RecvError)`. -/
def Follower.refresh_blocking (app : U → S → S) (f : Follower S U)
    (buf : List (U × Nat)) (connected : Bool) : Option (Follower S U × Bool) :=
  match buf with
  | [] => if connected then none else some (f, false)
  | m :: rest =>
    match Follower.refresh app (f.apply app m.1 m.2) rest connected with
    | (f2, TryRecvErr.disconnected) => some (f2, false)
    | (f2, TryRecvErr.empty) => some (f2, true)

/-- Mirrors `Follower::follow`: push a fresh connected channel onto the relay
subscriber list; the child starts from a clone of the current state. -/
def Follower.follow (f : Follower S U) : Follower S U × State S :=
  ({ f with subscribers := f.subscribers ++ [⟨[], true⟩] }, f.state)

/-- Mirrors `Follower::signal_at`: register a fresh pulse with the target
sequence number, immediately check the waiters, and return (the ghost id of)
the signal. -/
def Follower.signal_at (f : Follower S U) (seq : Nat) : Follower S U × Nat :=
  (Follower.check_waiters
    { f with waiters := f.waiters ++ [(f.nextPulse, seq)], nextPulse := f.nextPulse + 1 },
   f.nextPulse)

/-- Characterisation of the waiter-check loop over a prefix: satisfied
waiters (target ≤ cur) are removed and fired (in reverse list order, each
logged with the current sequence number), unsatisfied ones are kept in
order. -/
theorem checkLoop_spec (cur : Nat) (pre : List (Nat × Nat)) :
    ∀ (suf : List (Nat × Nat)) (fs : List (Nat × Nat × Nat)),
      checkLoop cur pre.length (pre ++ suf) fs
        = (pre.filter (fun w => !decide (w.2 ≤ cur)) ++ suf,
           fs ++ (pre.filter (fun w => decide (w.2 ≤ cur))).reverse.map
                   (fun w => (w.1, w.2, cur))) := by
  induction pre using List.reverseRecOn with
  | nil => intro suf fs; simp [checkLoop]
  | append_singleton pre w ih =>
    intro suf fs
    have hlen : (pre ++ [w]).length = pre.length + 1 := by simp
    have hsplit : (pre ++ [w]) ++ suf = pre ++ w :: suf := by simp
    rw [hlen, hsplit]
    show checkLoop cur (pre.length + 1) (pre ++ w :: suf) fs = _
    rw [checkLoop, get_at_junction]
    by_cases hw : w.2 ≤ cur
    · simp only [hw, if_true]
      rw [eraseIdx_at_junction, ih suf (fs ++ [(w.1, w.2, cur)])]
      simp [hw]
    · simp only [hw, if_false]
      rw [ih (w :: suf) fs]
      simp [hw]

/-- Waiter-check characterisation at the full waiter list. -/
theorem check_waiters_eq (f : Follower S U) :
    f.check_waiters
      = { f with
          waiters := f.waiters.filter (fun w => !decide (w.2 ≤ f.state.seq))
          fired := f.fired ++ (f.waiters.filter (fun w => decide (w.2 ≤ f.state.seq))).reverse.map
                     (fun w => (w.1, w.2, f.state.seq)) } := by
  have h := checkLoop_spec f.state.seq f.waiters [] f.fired
  simp only [List.append_nil] at h
  simp [Follower.check_waiters, h]

theorem check_waiters_state (f : Follower S U) : f.check_waiters.state = f.state := rfl

theorem check_waiters_subscribers (f : Follower S U) :
    f.check_waiters.subscribers = f.subscribers := rfl

theorem apply_state (app : U → S → S) (f : Follower S U) (u : U) (seq : Nat) :
    (f.apply app u seq).state = ⟨app u f.state.snapshot, seq⟩ := rfl

theorem apply_subscribers (app : U → S → S) (f : Follower S U) (u : U) (seq : Nat) :
    (f.apply app u seq).subscribers = broadcast (u, seq) f.subscribers := rfl

/-- C7: `Leader::new(initial_state)` starts with sequence number 0 and an
empty subscriber set; every `Leader::update` increments the sequence number by
exactly 1 before the stamped message is broadcast (the broadcast carries the
new sequence number) and returns the new sequence number, so the k-th update
on a fresh Leader returns k. -/
theorem c7_leader_new_update_seq (app : U → S → S) (s : S) (l : Leader S U) (u : U)
    (us : List U) :
    (Leader.new s : Leader S U).state.seq = 0
    ∧ (Leader.new s : Leader S U).subscribers = []
    ∧ (Leader.update app l u).2 = l.state.seq + 1
    ∧ (Leader.update app l u).1.state.seq = l.state.seq + 1
    ∧ (Leader.update app l u).1.subscribers = broadcast (u, l.state.seq + 1) l.subscribers
    ∧ (Leader.update app (Leader.updates app (Leader.new s) us) u).2 = us.length + 1 := by
  refine ⟨rfl, rfl, rfl, rfl, rfl, ?_⟩
  have h := updates_seq app us (Leader.new s : Leader S U)
  simp only [Leader.update]
  rw [h]
  simp [Leader.new]

/-- C8: applying a `Sequenced<U>` to a `Sequenced<S>` applies the inner update
to the inner value and sets the target's `seq` to the update's `seq`; since
`Sequenced` has exactly the fields `value` and `seq`, the full structure
equality shows no other field changes. -/
theorem c8_sequenced_apply (app : U → S → S) (u : Sequenced U) (t : Sequenced S) :
    Sequenced.apply app u t = ⟨app u.value t.value, u.seq⟩
    ∧ (Sequenced.apply app u t).value = app u.value t.value
    ∧ (Sequenced.apply app u t).seq = u.seq :=
  ⟨rfl, rfl, rfl⟩

-- Draining lemmas for `Follower::refresh`.

/-- The refresh loop applies every buffered message in order (a left fold of
`Follower::apply`) and then reports `Empty` or `Disconnected` according to the
upstream's connection state. -/
theorem refresh_eq_foldl (app : U → S → S) (buf : List (U × Nat)) :
    ∀ (f : Follower S U) (c : Bool),
      Follower.refresh app f buf c
        = (buf.foldl (fun g m => g.apply app m.1 m.2) f,
           if c then TryRecvErr.empty else TryRecvErr.disconnected) := by
  induction buf with
  | nil => intro f c; rfl
  | cons m rest ih =>
    intro f c
    show Follower.refresh app (f.apply app m.1 m.2) rest c = _
    rw [ih (f.apply app m.1 m.2) c]
    rfl

theorem refresh_snapshot (app : U → S → S) (buf : List (U × Nat)) :
    ∀ (f : Follower S U) (c : Bool),
      (Follower.refresh app f buf c).1.state.snapshot
        = buf.foldl (fun s m => app m.1 s) f.state.snapshot := by
  induction buf with
  | nil => intro f c; rfl
  | cons m rest ih =>
    intro f c
    show (Follower.refresh app (f.apply app m.1 m.2) rest c).1.state.snapshot = _
    rw [ih (f.apply app m.1 m.2) c]
    rfl

theorem refresh_seq (app : U → S → S) (buf : List (U × Nat)) :
    ∀ (f : Follower S U) (c : Bool),
      (Follower.refresh app f buf c).1.state.seq
        = buf.foldl (fun _ m => m.2) f.state.seq := by
  induction buf with
  | nil => intro f c; rfl
  | cons m rest ih =>
    intro f c
    show (Follower.refresh app (f.apply app m.1 m.2) rest c).1.state.seq = _
    rw [ih (f.apply app m.1 m.2) c]
    rfl

/-- On a non-empty buffer, `refresh_blocking` returns the same follower as a
full `refresh`, and succeeds exactly when the upstream is still connected. -/
theorem refresh_blocking_of_ne_nil (app : U → S → S) (f : Follower S U) (m : U × Nat)
    (rest : List (U × Nat)) (c : Bool) :
    Follower.refresh_blocking app f (m :: rest) c
      = some ((Follower.refresh app f (m :: rest) c).1, c) := by
  have hr := refresh_eq_foldl app rest (f.apply app m.1 m.2) c
  have hfull : Follower.refresh app f (m :: rest) c
      = Follower.refresh app (f.apply app m.1 m.2) rest c := rfl
  show (match Follower.refresh app (f.apply app m.1 m.2) rest c with
        | (f2, TryRecvErr.disconnected) => some (f2, false)
        | (f2, TryRecvErr.empty) => some (f2, true))
      = some ((Follower.refresh app f (m :: rest) c).1, c)
  rw [hfull, hr]
  cases c <;> rfl

/-- C4: after `Leader::update`, the subscriber set is exactly the prior
subscribers whose send succeeded: the connected ones are all kept, in order,
each having received the stamped message, and every subscriber whose send
reported disconnected is removed in that same broadcast pass (the reverse
index loop removes several in one pass without skipping anyone); the call
still returns the new sequence number, so a subscriber disconnect never
surfaces as an error from `update`. -/
theorem c4_update_prunes_subscribers (app : U → S → S) (l : Leader S U) (u : U) :
    (Leader.update app l u).1.subscribers
      = l.subscribers.filterMap
          (fun c => if c.connected then some (sendMsg (u, l.state.seq + 1) c) else none)
    ∧ (Leader.update app l u).2 = l.state.seq + 1 := by
  refine ⟨?_, rfl⟩
  show broadcast (u, l.state.seq + 1) l.subscribers = _
  exact broadcast_eq_filterMap (u, l.state.seq + 1) l.subscribers

/-- C9: when the upstream has disconnected while messages are still buffered,
`refresh` applies every buffered update in order — the follower ends up as the
left fold of `Follower::apply` over the buffer, its snapshot as the fold of
the updates and its sequence number as the last delivered stamp — and only
then returns `Disconnected`; no buffered update is lost. -/
theorem c9_refresh_drains_before_disconnect (app : U → S → S) (f : Follower S U)
    (buf : List (U × Nat)) :
    Follower.refresh app f buf false
      = (buf.foldl (fun g m => g.apply app m.1 m.2) f, TryRecvErr.disconnected)
    ∧ (Follower.refresh app f buf false).1.state.snapshot
      = buf.foldl (fun s m => app m.1 s) f.state.snapshot
    ∧ (Follower.refresh app f buf false).1.state.seq
      = buf.foldl (fun _ m => m.2) f.state.seq := by
  refine ⟨?_, refresh_snapshot app buf f false, refresh_seq app buf f false⟩
  simpa using refresh_eq_foldl app buf f false

/-- C2 counterexample: with the upstream disconnected after sending one
buffered update, `refresh_blocking` receives and applies that update (the
snapshot becomes 1 and the sequence number advances to 1) and still returns
`Err(RecvError)` — refuting the claim that the call succeeds in every
execution where at least one update is received and applied. -/
theorem c2_counterexample :
    ((Follower.refresh_blocking (fun (u : Nat) (_ : Nat) => u)
        (Follower.new ⟨0, 0⟩ : Follower Nat Nat) [(1, 1)] false).map Prod.snd
      = some false)
    ∧ ((Follower.refresh_blocking (fun (u : Nat) (_ : Nat) => u)
        (Follower.new ⟨0, 0⟩ : Follower Nat Nat) [(1, 1)] false).map
          (fun r => r.1.state.seq) = some 1)
    ∧ ((Follower.refresh_blocking (fun (u : Nat) (_ : Nat) => u)
        (Follower.new ⟨0, 0⟩ : Follower Nat Nat) [(1, 1)] false).map
          (fun r => r.1.state.snapshot) = some 1) := by
  refine ⟨rfl, rfl, rfl⟩

/-- C2 (amended): whenever `refresh_blocking` returns, it has applied every
buffered update in order, and it succeeds if and only if at least one update
was buffered and the upstream was still connected once the buffer was
drained; equivalently, it returns an error exactly when the upstream is
disconnected at the point the drain finishes, with nothing left to deliver —
including executions in which updates were received and applied before the
disconnect was observed. -/
theorem c2_refresh_blocking_amended (app : U → S → S) (f : Follower S U)
    (buf : List (U × Nat)) (c : Bool) (r : Follower S U × Bool)
    (h : Follower.refresh_blocking app f buf c = some r) :
    (r.2 = true ↔ (buf ≠ [] ∧ c = true))
    ∧ r.1 = buf.foldl (fun g m => g.apply app m.1 m.2) f := by
  cases buf with
  | nil =>
    cases c with
    | false =>
      have hr : r = (f, false) := by
        simpa [Follower.refresh_blocking] using h.symm
      subst hr
      simp
    | true => simp [Follower.refresh_blocking] at h
  | cons m rest =>
    rw [refresh_blocking_of_ne_nil app f m rest c] at h
    have hr : r = ((Follower.refresh app f (m :: rest) c).1, c) := by
      exact (Option.some_injective _ h).symm
    subst hr
    constructor
    · cases c <;> simp
    · rw [refresh_eq_foldl app (m :: rest) f c]

/-- C2 witness: the amended statement evaluated on the concrete disconnected
run used in the counterexample. -/
theorem c2_refresh_blocking_amended_witness :
    (Follower.refresh_blocking (fun (u : Nat) (_ : Nat) => u)
        (Follower.new ⟨0, 0⟩ : Follower Nat Nat) [(1, 1)] false
      = some (⟨⟨1, 1⟩, [], [], [], 0⟩, false))
    ∧ ((false = true ↔ (([((1 : Nat), (1 : Nat))] : List (Nat × Nat)) ≠ [] ∧ false = true))
        ∧ (⟨⟨1, 1⟩, [], [], [], 0⟩ : Follower Nat Nat)
            = [((1 : Nat), (1 : Nat))].foldl
                (fun g m => g.apply (fun (u : Nat) (_ : Nat) => u) m.1 m.2)
                (Follower.new ⟨0, 0⟩ : Follower Nat Nat)) :=
  ⟨rfl, c2_refresh_blocking_amended (fun (u : Nat) (_ : Nat) => u)
    (Follower.new ⟨0, 0⟩) [(1, 1)] false (⟨⟨1, 1⟩, [], [], [], 0⟩, false) rfl⟩

-- Closed system: one Leader and the single Follower created by `Leader::follow`.

/-- Closed system of one Leader and one Follower obtained from
`let mut l = Leader::new(s); let mut f = l.follow();`.  The single subscriber
channel is the follower's subscription; its buffer is `buf` and it stays
connected because the follower keeps the receiving end alive (and the leader
keeps the sending end alive, so the follower never sees `Disconnected`). -/
structure Sys (S U : Type) where
  lstate : State S
  buf : List (U × Nat)
  follower : Follower S U
deriving DecidableEq

/-- Models `Leader::new(s)` followed by `leader.follow()`. -/
def Sys.init (s : S) : Sys S U :=
  ⟨⟨s, 0⟩, [], Follower.new ⟨s, 0⟩⟩

/-- `Leader::update` inside the closed system: runs the real `Leader.update`
on the leader viewed with its singleton subscriber list. -/
def Sys.update (app : U → S → S) (sys : Sys S U) (u : U) : Sys S U × Nat :=
  let r := Leader.update app ⟨sys.lstate, [⟨sys.buf, true⟩]⟩ u
  (⟨r.1.state, (r.1.subscribers.headD ⟨[], true⟩).buf, sys.follower⟩, r.2)

/-- `Follower::refresh` inside the closed system: drains the channel buffer. -/
def Sys.refresh (app : U → S → S) (sys : Sys S U) : Sys S U × TryRecvErr :=
  let r := Follower.refresh app sys.follower sys.buf true
  (⟨sys.lstate, [], r.1⟩, r.2)

/-- `Follower::refresh_blocking` inside the closed system.  With the leader
alive the channel is connected, so on an empty buffer the call blocks (no
state change ever becomes observable, modelled as the identity); otherwise it
drains the buffer exactly like `refresh`. -/
def Sys.refresh_blocking (app : U → S → S) (sys : Sys S U) : Sys S U :=
  match Follower.refresh_blocking app sys.follower sys.buf true with
  | none => sys
  | some r => ⟨sys.lstate, [], r.1⟩

theorem sys_update_eq (app : U → S → S) (sys : Sys S U) (u : U) :
    Sys.update app sys u
      = (⟨⟨app u sys.lstate.snapshot, sys.lstate.seq + 1⟩,
          sys.buf ++ [(u, sys.lstate.seq + 1)], sys.follower⟩,
         sys.lstate.seq + 1) := rfl

theorem sys_refresh_blocking_nil (app : U → S → S) (sys : Sys S U)
    (h : sys.buf = []) : Sys.refresh_blocking app sys = sys := by
  rcases sys with ⟨ls, buf, f⟩
  simp only at h
  subst h
  rfl

theorem sys_refresh_blocking_cons (app : U → S → S) (sys : Sys S U)
    (m : U × Nat) (rest : List (U × Nat)) (h : sys.buf = m :: rest) :
    Sys.refresh_blocking app sys = (Sys.refresh app sys).1 := by
  rcases sys with ⟨ls, buf, f⟩
  simp only at h
  subst h
  show (match Follower.refresh_blocking app f (m :: rest) true with
        | none => (⟨ls, m :: rest, f⟩ : Sys S U)
        | some r => ⟨ls, [], r.1⟩)
      = (Sys.refresh app ⟨ls, m :: rest, f⟩).1
  rw [refresh_blocking_of_ne_nil app f m rest true]
  rfl

-- C1: lockstep update/refresh rounds keep the follower equal to the leader.

/-- One round of `leader.update(u); follower.refresh();`. -/
def c1Step (app : U → S → S) (sys : Sys S U) (u : U) : Sys S U :=
  (Sys.refresh app (Sys.update app sys u).1).1

/-- A fresh leader/follower pair driven through one update/refresh round per
element of `us`. -/
def c1Run (app : U → S → S) (s : S) (us : List U) : Sys S U :=
  us.foldl (c1Step app) (Sys.init s)

theorem c1Step_inv (app : U → S → S) (sys : Sys S U) (u : U)
    (h1 : sys.follower.state = sys.lstate) (h2 : sys.buf = []) :
    (c1Step app sys u).follower.state = (c1Step app sys u).lstate
    ∧ (c1Step app sys u).buf = [] := by
  rcases sys with ⟨ls, buf, f⟩
  simp only at h1 h2
  subst h2
  refine ⟨?_, rfl⟩
  show (f.apply app u (ls.seq + 1)).state = ⟨app u ls.snapshot, ls.seq + 1⟩
  rw [apply_state, h1]

theorem c1_run_inv (app : U → S → S) (us : List U) :
    ∀ sys : Sys S U, sys.follower.state = sys.lstate → sys.buf = [] →
      (us.foldl (c1Step app) sys).follower.state = (us.foldl (c1Step app) sys).lstate
      ∧ (us.foldl (c1Step app) sys).buf = [] := by
  induction us with
  | nil => intro sys h1 h2; exact ⟨h1, h2⟩
  | cons u t ih =>
    intro sys h1 h2
    have h := c1Step_inv app sys u h1 h2
    simpa using ih (c1Step app sys u) h.1 h.2

/-- C1: for every initial state and every finite sequence of update values,
a Follower created by `Leader::follow` that refreshes after each
`Leader::update` ends with its replica equal to the Leader's state and its
sequence number equal to the Leader's sequence number. -/
theorem c1_follower_converges (app : U → S → S) (s : S) (us : List U) :
    (c1Run app s us).follower.state.snapshot = (c1Run app s us).lstate.snapshot
    ∧ (c1Run app s us).follower.state.seq = (c1Run app s us).lstate.seq := by
  have h := c1_run_inv app us (Sys.init s) rfl rfl
  unfold c1Run
  exact ⟨by rw [h.1], by rw [h.1]⟩

-- C5: sequence numbers are monotone and bounded by the leader's.

/-- Operations a caller can interleave on the closed system. -/
inductive SysOp (U : Type) where
  | update (u : U)
  | refresh
  | refreshBlocking

/-- One caller operation on the closed system. -/
def Sys.step (app : U → S → S) (sys : Sys S U) : SysOp U → Sys S U
  | .update u => (Sys.update app sys u).1
  | .refresh => (Sys.refresh app sys).1
  | .refreshBlocking => Sys.refresh_blocking app sys

/-- A whole interleaving of caller operations. -/
def Sys.run (app : U → S → S) (sys : Sys S U) (ops : List (SysOp U)) : Sys S U :=
  ops.foldl (Sys.step app) sys

/-- System invariant: the follower's sequence number followed by the stamps
buffered in the channel is non-decreasing, and everything is bounded by the
leader's sequence number. -/
def SeqInv (sys : Sys S U) : Prop :=
  List.Chain' (· ≤ ·) (sys.follower.state.seq :: sys.buf.map Prod.snd)
  ∧ ∀ x ∈ sys.follower.state.seq :: sys.buf.map Prod.snd, x ≤ sys.lstate.seq

theorem chain_foldl_mono :
    ∀ (l : List Nat) (a : Nat), List.Chain' (· ≤ ·) (a :: l) →
      a ≤ l.foldl (fun _ x => x) a := by
  intro l
  induction l with
  | nil => intro a _; exact le_refl a
  | cons b t ih =>
    intro a h
    rw [List.chain'_cons] at h
    exact le_trans h.1 (ih b h.2)

theorem chain_foldl_le :
    ∀ (l : List Nat) (a L : Nat), a ≤ L → (∀ x ∈ l, x ≤ L) →
      l.foldl (fun _ x => x) a ≤ L := by
  intro l
  induction l with
  | nil => intro a L h _; exact h
  | cons b t ih =>
    intro a L _ hl
    exact ih b L (hl b (by simp)) (fun x hx => hl x (by simp [hx]))

theorem chain_snoc :
    ∀ (l : List Nat) (a b : Nat), List.Chain' (· ≤ ·) (a :: l) →
      (∀ x ∈ a :: l, x ≤ b) → List.Chain' (· ≤ ·) (a :: l ++ [b]) := by
  intro l
  induction l with
  | nil =>
    intro a b _ hb
    exact List.chain'_cons.2 ⟨hb a (by simp), List.chain'_singleton b⟩
  | cons c t ih =>
    intro a b h hb
    rw [List.chain'_cons] at h
    refine List.chain'_cons.2 ⟨h.1, ?_⟩
    exact ih c b h.2 (fun x hx => hb x (by simp at hx ⊢; tauto))

theorem sys_refresh_inv (app : U → S → S) (ls : State S) (buf : List (U × Nat))
    (f : Follower S U)
    (hchain : List.Chain' (· ≤ ·) (f.state.seq :: buf.map Prod.snd))
    (hle : ∀ x ∈ f.state.seq :: buf.map Prod.snd, x ≤ ls.seq) :
    SeqInv (⟨ls, [], (Follower.refresh app f buf true).1⟩ : Sys S U)
    ∧ f.state.seq ≤ (Follower.refresh app f buf true).1.state.seq := by
  have hmono : f.state.seq ≤ (Follower.refresh app f buf true).1.state.seq := by
    rw [refresh_seq]
    have hm := chain_foldl_mono (buf.map Prod.snd) f.state.seq hchain
    rw [List.foldl_map] at hm
    exact hm
  have hbound : (Follower.refresh app f buf true).1.state.seq ≤ ls.seq := by
    rw [refresh_seq]
    have hb := chain_foldl_le (buf.map Prod.snd) f.state.seq ls.seq
      (hle _ (by simp)) (fun y hy => hle y (by simp [hy]))
    rw [List.foldl_map] at hb
    exact hb
  refine ⟨⟨List.chain'_singleton _, ?_⟩, hmono⟩
  intro x hx
  have hx0 : x = (Follower.refresh app f buf true).1.state.seq := by
    simpa using hx
  subst hx0
  exact hbound

theorem sys_step_inv (app : U → S → S) (sys : Sys S U) (op : SysOp U)
    (h : SeqInv sys) :
    SeqInv (Sys.step app sys op)
    ∧ sys.follower.state.seq ≤ (Sys.step app sys op).follower.state.seq := by
  obtain ⟨hchain, hle⟩ := h
  rcases sys with ⟨ls, buf, f⟩
  simp only at hchain hle
  cases op with
  | update u =>
    refine ⟨⟨?_, ?_⟩, le_refl _⟩
    · show List.Chain' (· ≤ ·)
        (f.state.seq :: (buf ++ [(u, ls.seq + 1)]).map Prod.snd)
      rw [List.map_append, ← List.cons_append]
      exact chain_snoc _ _ _ hchain
        (fun x hx => le_trans (hle x hx) (Nat.le_succ _))
    · show ∀ x ∈ f.state.seq :: (buf ++ [(u, ls.seq + 1)]).map Prod.snd, x ≤ ls.seq + 1
      intro x hx
      rw [List.map_append, ← List.cons_append] at hx
      rcases List.mem_append.1 hx with h1 | h1
      · exact le_trans (hle x h1) (Nat.le_succ _)
      · simp only [List.map_cons, List.map_nil, List.mem_singleton] at h1
        omega
  | refresh =>
    exact sys_refresh_inv app ls buf f hchain hle
  | refreshBlocking =>
    rcases buf with _ | ⟨m, rest⟩
    · exact ⟨⟨hchain, hle⟩, le_refl _⟩
    · have heq := sys_refresh_blocking_cons app ⟨ls, m :: rest, f⟩ m rest rfl
      show SeqInv (Sys.refresh_blocking app ⟨ls, m :: rest, f⟩)
        ∧ f.state.seq ≤ (Sys.refresh_blocking app ⟨ls, m :: rest, f⟩).follower.state.seq
      rw [heq]
      exact sys_refresh_inv app ls (m :: rest) f hchain hle

theorem sys_run_inv (app : U → S → S) (ops : List (SysOp U)) :
    ∀ sys : Sys S U, SeqInv sys →
      SeqInv (Sys.run app sys ops)
      ∧ sys.follower.state.seq ≤ (Sys.run app sys ops).follower.state.seq := by
  induction ops with
  | nil => intro sys h; exact ⟨h, le_refl _⟩
  | cons op t ih =>
    intro sys h
    have h1 := sys_step_inv app sys op h
    have h2 := ih (Sys.step app sys op) h1.1
    exact ⟨h2.1, le_trans h1.2 h2.2⟩

/-- C5: across any interleaving of `update`, `refresh` and `refresh_blocking`
calls on a Follower fed by a Leader, the Follower's sequence number is
non-decreasing, and at every point it is bounded by the Leader's sequence
number (the Leader stamps each message with its sequence number at production
time and its counter only grows, so this also bounds the follower by the
Leader's sequence number at the time the last delivered update was
produced). -/
theorem c5_follower_seq_monotone (app : U → S → S) (s : S)
    (ops more : List (SysOp U)) :
    (Sys.run app (Sys.init s) ops).follower.state.seq
      ≤ (Sys.run app (Sys.run app (Sys.init s) ops) more).follower.state.seq
    ∧ (Sys.run app (Sys.run app (Sys.init s) ops) more).follower.state.seq
      ≤ (Sys.run app (Sys.run app (Sys.init s) ops) more).lstate.seq := by
  have h0 : SeqInv (Sys.init s : Sys S U) := by
    refine ⟨List.chain'_singleton _, ?_⟩
    intro x hx
    have hx0 : x = 0 := by simpa [Sys.init] using hx
    subst hx0
    exact Nat.zero_le _
  have h1 := sys_run_inv app ops (Sys.init s) h0
  have h2 := sys_run_inv app more (Sys.run app (Sys.init s) ops) h1.1
  exact ⟨h2.2, h2.1.2 _ (by simp)⟩

-- C6: relay trees.  Leader L, F1 = L.follow(), F2 = F1.follow().

/-- Closed three-node relay system.  `buf1` is the L→F1 channel buffer; the
F1→F2 channel is the single entry of `f1.subscribers` (F1 holds the sending
end, F2 the receiving end, so it stays connected). -/
structure Sys2 (S U : Type) where
  lstate : State S
  buf1 : List (U × Nat)
  f1 : Follower S U
  f2 : Follower S U
deriving DecidableEq

/-- Models `let mut l = Leader::new(s); let mut f1 = l.follow();
let mut f2 = f1.follow();`. -/
def Sys2.init (s : S) : Sys2 S U :=
  let l := (Leader.new s : Leader S U)
  let r1 := l.follow
  let f1 := (Follower.new r1.2 : Follower S U)
  let r2 := f1.follow
  ⟨r1.1.state, [], r2.1, Follower.new r2.2⟩

/-- `Leader::update` in the relay system (the real `Leader.update` on the
singleton subscriber list). -/
def Sys2.update (app : U → S → S) (sys : Sys2 S U) (u : U) : Sys2 S U :=
  let r := Leader.update app ⟨sys.lstate, [⟨sys.buf1, true⟩]⟩ u
  ⟨r.1.state, (r.1.subscribers.headD ⟨[], true⟩).buf, sys.f1, sys.f2⟩

/-- `f1.refresh()`: F1 drains its upstream channel; its `apply` re-broadcasts
every applied message into its own subscriber channel (the F1→F2 link). -/
def Sys2.f1refresh (app : U → S → S) (sys : Sys2 S U) : Sys2 S U :=
  ⟨sys.lstate, [], (Follower.refresh app sys.f1 sys.buf1 true).1, sys.f2⟩

/-- `f2.refresh()`: F2 drains the F1→F2 channel (held in `f1.subscribers`),
which empties that buffer. -/
def Sys2.f2refresh (app : U → S → S) (sys : Sys2 S U) : Sys2 S U :=
  let c := sys.f1.subscribers.headD ⟨[], true⟩
  ⟨sys.lstate, sys.buf1,
   { sys.f1 with subscribers := [⟨[], true⟩] },
   (Follower.refresh app sys.f2 c.buf true).1⟩

/-- During a refresh, a follower whose (connected) outbound channel holds `b`
re-broadcasts exactly the `(update, seq)` pairs it applies, in order: the
channel ends holding `b ++ msgs`. -/
theorem refresh_relay (app : U → S → S) (msgs : List (U × Nat)) :
    ∀ (f : Follower S U) (b : List (U × Nat)) (c : Bool),
      f.subscribers = [⟨b, true⟩] →
      (Follower.refresh app f msgs c).1.subscribers = [⟨b ++ msgs, true⟩] := by
  induction msgs with
  | nil => intro f b c h; simpa using h
  | cons m rest ih =>
    intro f b c h
    show (Follower.refresh app (f.apply app m.1 m.2) rest c).1.subscribers = _
    have hsub : (f.apply app m.1 m.2).subscribers = [⟨b ++ [m], true⟩] := by
      rw [apply_subscribers, h]
      rfl
    rw [ih (f.apply app m.1 m.2) (b ++ [m]) c hsub]
    simp

/-- The scenario `L.update(x); F1.refresh(); F2.refresh();`. -/
def c6A (app : U → S → S) (s : S) (x : U) : Sys2 S U :=
  Sys2.f2refresh app (Sys2.f1refresh app (Sys2.update app (Sys2.init s) x))

/-- The other order: `L.update(x); F2.refresh(); F1.refresh();` followed by
the extra `F2.refresh()` after which F2 has converged. -/
def c6B (app : U → S → S) (s : S) (x : U) : Sys2 S U :=
  Sys2.f2refresh app (Sys2.f1refresh app (Sys2.f2refresh app (Sys2.update app (Sys2.init s) x)))

/-- C6: the relay child receives exactly the `(update, seq)` pairs its parent
applies, re-broadcast as each one is applied; in the concrete scenario, after
`L.update(x)`, `F1.refresh()` and `F2.refresh()` both F1 and F2 carry L's
state and L's sequence number, and running the two refresh calls in the other
order yields the same converged value once each follower has drained its
channel. -/
theorem c6_relay_transparent (app : U → S → S) (s : S) (x : U)
    (msgs : List (U × Nat)) (f : Follower S U) (b : List (U × Nat)) (c : Bool)
    (h : f.subscribers = [⟨b, true⟩]) :
    (Follower.refresh app f msgs c).1.subscribers = [⟨b ++ msgs, true⟩]
    ∧ (c6A app s x).f1.state = (c6A app s x).lstate
    ∧ (c6A app s x).f2.state = (c6A app s x).lstate
    ∧ (c6A app s x).lstate = ⟨app x s, 1⟩
    ∧ (c6B app s x).f1.state = (c6A app s x).f1.state
    ∧ (c6B app s x).f2.state = (c6A app s x).f2.state := by
  exact ⟨refresh_relay app msgs f b c h, rfl, rfl, rfl, rfl, rfl⟩

/-- C6 witness: the relay statement evaluated on a concrete follower whose
outbound channel is empty, one concrete relayed message, and the concrete
scenario with state 0 updated by 5. -/
theorem c6_relay_transparent_witness :
    ((⟨⟨0, 0⟩, [⟨[], true⟩], [], [], 0⟩ : Follower Nat Nat).subscribers
        = [⟨[], true⟩])
    ∧ ((Follower.refresh (fun (u : Nat) (_ : Nat) => u)
          (⟨⟨0, 0⟩, [⟨[], true⟩], [], [], 0⟩ : Follower Nat Nat)
          [(7, 1)] true).1.subscribers = [⟨[] ++ [(7, 1)], true⟩]
      ∧ (c6A (fun (u : Nat) (_ : Nat) => u) 0 5).f1.state
          = (c6A (fun (u : Nat) (_ : Nat) => u) 0 5).lstate
      ∧ (c6A (fun (u : Nat) (_ : Nat) => u) 0 5).f2.state
          = (c6A (fun (u : Nat) (_ : Nat) => u) 0 5).lstate
      ∧ (c6A (fun (u : Nat) (_ : Nat) => u) 0 5).lstate = ⟨(fun (u : Nat) (_ : Nat) => u) 5 0, 1⟩
      ∧ (c6B (fun (u : Nat) (_ : Nat) => u) 0 5).f1.state
          = (c6A (fun (u : Nat) (_ : Nat) => u) 0 5).f1.state
      ∧ (c6B (fun (u : Nat) (_ : Nat) => u) 0 5).f2.state
          = (c6A (fun (u : Nat) (_ : Nat) => u) 0 5).f2.state) :=
  ⟨rfl, c6_relay_transparent (fun (u : Nat) (_ : Nat) => u) 0 5 [(7, 1)]
    ⟨⟨0, 0⟩, [⟨[], true⟩], [], [], 0⟩ [] true rfl⟩

-- C3: the waiter/signal discipline.

/-- Events driven onto a single Follower: a delivered `(update, seq)` message
(applied via `Follower::apply`) or a `signal_at` registration. -/
inductive FOp (U : Type) where
  | deliver (u : U) (seq : Nat)
  | signal (n : Nat)

/-- One event on a Follower. -/
def Follower.stepOp (app : U → S → S) (f : Follower S U) : FOp U → Follower S U
  | .deliver u seq => f.apply app u seq
  | .signal n => (f.signal_at n).1

/-- A whole event sequence on a Follower. -/
def Follower.runOps (app : U → S → S) (f : Follower S U) (ops : List (FOp U)) : Follower S U :=
  ops.foldl (Follower.stepOp app) f

/-- Ghost bookkeeping invariant on the waiter state `(ws, fs, np)` =
(pending waiters, fired log, freshness counter): all pulse ids are below the
counter, pending and fired ids are duplicate-free and mutually disjoint, and
every fired entry was fired at a sequence number at or past its target. -/
def WCoreL (ws : List (Nat × Nat)) (fs : List (Nat × Nat × Nat)) (np : Nat) : Prop :=
  (∀ w ∈ ws, w.1 < np)
  ∧ (∀ e ∈ fs, e.1 < np)
  ∧ (ws.map Prod.fst).Nodup
  ∧ (fs.map (fun e => e.1)).Nodup
  ∧ (∀ w ∈ ws, ∀ e ∈ fs, w.1 ≠ e.1)
  ∧ (∀ e ∈ fs, e.2.1 ≤ e.2.2)

/-- Full waiter invariant of a Follower: the bookkeeping invariant plus the
eager-check property that no pending waiter's target has been reached. -/
def WInv (f : Follower S U) : Prop :=
  WCoreL f.waiters f.fired f.nextPulse ∧ ∀ w ∈ f.waiters, f.state.seq < w.2

theorem checkL_winv (cur : Nat) (ws : List (Nat × Nat)) (fs : List (Nat × Nat × Nat))
    (np : Nat) (h : WCoreL ws fs np) :
    WCoreL (ws.filter fun w => !decide (w.2 ≤ cur))
      (fs ++ (ws.filter fun w => decide (w.2 ≤ cur)).reverse.map fun w => (w.1, w.2, cur)) np
    ∧ ∀ w ∈ ws.filter fun w => !decide (w.2 ≤ cur), cur < w.2 := by
  obtain ⟨h1, h2, h3, h4, h5, h6⟩ := h
  have hkept : ∀ w, w ∈ (ws.filter fun w => !decide (w.2 ≤ cur)) → w ∈ ws ∧ cur < w.2 := by
    intro w hw
    rw [List.mem_filter] at hw
    refine ⟨hw.1, ?_⟩
    have h' := hw.2
    simp only [Bool.not_eq_true', decide_eq_false_iff_not, Nat.not_le] at h'
    exact h'
  have hmoved : ∀ e, e ∈ ((ws.filter fun w => decide (w.2 ≤ cur)).reverse.map
      fun w => ((w.1, w.2, cur) : Nat × Nat × Nat)) →
      ∃ w, w ∈ ws ∧ w.2 ≤ cur ∧ e = (w.1, w.2, cur) := by
    intro e he
    rw [List.mem_map] at he
    obtain ⟨w, hw, hwe⟩ := he
    rw [List.mem_reverse, List.mem_filter] at hw
    exact ⟨w, hw.1, by simpa using hw.2, hwe.symm⟩
  have hkeptsub : List.Sublist (ws.filter fun w => !decide (w.2 ≤ cur)) ws :=
    List.filter_sublist ws
  have hmovsub : List.Sublist (ws.filter fun w => decide (w.2 ≤ cur)) ws :=
    List.filter_sublist ws
  refine ⟨⟨?_, ?_, ?_, ?_, ?_, ?_⟩, fun w hw => (hkept w hw).2⟩
  · intro w hw
    exact h1 w (hkept w hw).1
  · intro e he
    rcases List.mem_append.1 he with h' | h'
    · exact h2 e h'
    · obtain ⟨w, hws, _, rfl⟩ := hmoved e h'
      exact h1 w hws
  · exact List.Nodup.sublist (List.Sublist.map Prod.fst hkeptsub) h3
  · rw [List.map_append, List.nodup_append]
    refine ⟨h4, ?_, ?_⟩
    · rw [List.map_map]
      have hcomp : ((fun (e : Nat × Nat × Nat) => e.1) ∘ fun (w : Nat × Nat) => (w.1, w.2, cur))
          = Prod.fst := rfl
      rw [hcomp, List.map_reverse, List.nodup_reverse]
      exact List.Nodup.sublist (List.Sublist.map Prod.fst hmovsub) h3
    · intro a ha hb
      rw [List.mem_map] at ha
      obtain ⟨e, he, rfl⟩ := ha
      rw [List.mem_map] at hb
      obtain ⟨w, hw, hwa⟩ := hb
      obtain ⟨w', hws', _, rfl⟩ := hmoved w hw
      exact h5 w' hws' e he hwa
  · intro w hw e he
    rcases List.mem_append.1 he with h' | h'
    · exact h5 w (hkept w hw).1 e h'
    · obtain ⟨w', hws', hsat', rfl⟩ := hmoved e h'
      intro heq
      have hww : w = w' :=
        List.inj_on_of_nodup_map h3 (hkept w hw).1 hws' heq
      have hlt := (hkept w hw).2
      rw [hww] at hlt
      omega
  · intro e he
    rcases List.mem_append.1 he with h' | h'
    · exact h6 e h'
    · obtain ⟨w, _, hsat, rfl⟩ := hmoved e h'
      exact hsat

theorem check_waiters_waiters (f : Follower S U) :
    f.check_waiters.waiters = f.waiters.filter (fun w => !decide (w.2 ≤ f.state.seq)) := by
  rw [check_waiters_eq]

theorem check_waiters_fired (f : Follower S U) :
    f.check_waiters.fired
      = f.fired ++ (f.waiters.filter (fun w => decide (w.2 ≤ f.state.seq))).reverse.map
          (fun w => (w.1, w.2, f.state.seq)) := by
  rw [check_waiters_eq]

theorem check_waiters_winv (f : Follower S U)
    (h : WCoreL f.waiters f.fired f.nextPulse) : WInv f.check_waiters := by
  have hres := checkL_winv f.state.seq f.waiters f.fired f.nextPulse h
  constructor
  · rw [check_waiters_waiters, check_waiters_fired]
    exact hres.1
  · rw [check_waiters_waiters]
    exact hres.2

theorem stepOp_winv (app : U → S → S) (f : Follower S U) (op : FOp U)
    (h : WInv f) : WInv (f.stepOp app op) := by
  obtain ⟨⟨h1, h2, h3, h4, h5, h6⟩, h7⟩ := h
  cases op with
  | deliver u seq =>
    exact check_waiters_winv _ ⟨h1, h2, h3, h4, h5, h6⟩
  | signal n =>
    apply check_waiters_winv
    refine ⟨?_, ?_, ?_, h4, ?_, h6⟩
    · intro w hw
      rcases List.mem_append.1 hw with h' | h'
      · exact Nat.lt_succ_of_lt (h1 w h')
      · simp only [List.mem_singleton] at h'
        subst h'
        exact Nat.lt_succ_self _
    · intro e he
      exact Nat.lt_succ_of_lt (h2 e he)
    · rw [List.map_append, List.nodup_append]
      refine ⟨h3, by simp, ?_⟩
      intro a ha hb
      simp only [List.map_cons, List.map_nil, List.mem_singleton] at hb
      subst hb
      rw [List.mem_map] at ha
      obtain ⟨w, hw, hwnp⟩ := ha
      have := h1 w hw
      omega
    · intro w hw e he
      rcases List.mem_append.1 hw with h' | h'
      · exact h5 w h' e he
      · simp only [List.mem_singleton] at h'
        subst h'
        have := h2 e he
        show f.nextPulse ≠ e.1
        omega

theorem runOps_winv (app : U → S → S) (ops : List (FOp U)) :
    ∀ f : Follower S U, WInv f → WInv (f.runOps app ops) := by
  induction ops with
  | nil => intro f h; exact h
  | cons op t ih =>
    intro f h
    exact ih (f.stepOp app op) (stepOp_winv app f op h)

theorem winv_new (st : State S) : WInv (Follower.new st : Follower S U) := by
  refine ⟨⟨?_, ?_, ?_, ?_, ?_, ?_⟩, ?_⟩ <;> simp [Follower.new, WCoreL]

theorem runOps_append_signal (app : U → S → S) (f : Follower S U)
    (ops : List (FOp U)) (n : Nat) :
    f.runOps app (ops ++ [FOp.signal n]) = ((f.runOps app ops).signal_at n).1 := by
  unfold Follower.runOps
  rw [List.foldl_append]
  rfl

/-- A registration whose target is already reached fires immediately: the
fresh pulse is logged at registration time, at the current sequence number. -/
theorem signal_fires_now (f : Follower S U) (n : Nat) (h : n ≤ f.state.seq) :
    (f.nextPulse, n, f.state.seq) ∈ (f.signal_at n).1.fired := by
  show (f.nextPulse, n, f.state.seq)
    ∈ (Follower.check_waiters
        { f with waiters := f.waiters ++ [(f.nextPulse, n)],
                 nextPulse := f.nextPulse + 1 }).fired
  rw [check_waiters_fired]
  apply List.mem_append_right
  rw [List.mem_map]
  refine ⟨(f.nextPulse, n), ?_, rfl⟩
  rw [List.mem_reverse, List.mem_filter]
  refine ⟨List.mem_append_right _ (by simp), by simpa using h⟩

/-- C3: along any event sequence on a Follower, every registered waiter is
resolved at most once (the ghost log of pulse firings has duplicate-free
ids), a waiter is resolved only when the Follower's sequence number has
reached its target (each log entry records target ≤ sequence-at-firing, and
since the sequence number is only changed by applying an update, never before
the update carrying the target sequence), resolved waiters are removed from
the pending set (no fired id is still pending), waiters are checked at
registration and after every applied update (no pending waiter's target has
been reached), and a registration whose target is already reached resolves
immediately, exactly once, at registration. -/
theorem c3_signal_at_waiters (app : U → S → S) (st : State S)
    (ops : List (FOp U)) (n : Nat)
    (h : n ≤ (Follower.runOps app (Follower.new st) ops).state.seq) :
    (((Follower.runOps app (Follower.new st) ops).fired.map (fun e => e.1)).Nodup
    ∧ (∀ e ∈ (Follower.runOps app (Follower.new st) ops).fired, e.2.1 ≤ e.2.2)
    ∧ (∀ w ∈ (Follower.runOps app (Follower.new st) ops).waiters,
        (Follower.runOps app (Follower.new st) ops).state.seq < w.2)
    ∧ (∀ e ∈ (Follower.runOps app (Follower.new st) ops).fired,
        e.1 ∉ (Follower.runOps app (Follower.new st) ops).waiters.map Prod.fst))
    ∧ (((Follower.runOps app (Follower.new st)
          (ops ++ [FOp.signal n])).fired.map (fun e => e.1)).Nodup
    ∧ ((Follower.runOps app (Follower.new st) ops).nextPulse, n,
        (Follower.runOps app (Follower.new st) ops).state.seq)
        ∈ (Follower.runOps app (Follower.new st) (ops ++ [FOp.signal n])).fired) := by
  have hinv := runOps_winv app ops (Follower.new st) (winv_new st)
  have hinv2 := runOps_winv app (ops ++ [FOp.signal n]) (Follower.new st) (winv_new st)
  obtain ⟨⟨g1, g2, g3, g4, g5, g6⟩, g7⟩ := hinv
  refine ⟨⟨g4, g6, g7, ?_⟩, ⟨hinv2.1.2.2.2.1, ?_⟩⟩
  · intro e he hmem
    rw [List.mem_map] at hmem
    obtain ⟨w, hw, hwe⟩ := hmem
    exact g5 w hw e he hwe
  · rw [runOps_append_signal]
    exact signal_fires_now (Follower.runOps app (Follower.new st) ops) n h

/-- C3 witness: the waiter statement evaluated on the concrete run that
delivers update 5 with sequence number 3 and then registers a waiter with the
already-reached target 2. -/
theorem c3_signal_at_waiters_witness :
    (2 ≤ (Follower.runOps (fun (u : Nat) (_ : Nat) => u)
        (Follower.new ⟨0, 0⟩ : Follower Nat Nat) [FOp.deliver 5 3]).state.seq)
    ∧ ((((Follower.runOps (fun (u : Nat) (_ : Nat) => u)
            (Follower.new ⟨0, 0⟩ : Follower Nat Nat) [FOp.deliver 5 3]).fired.map
              (fun e => e.1)).Nodup
      ∧ (∀ e ∈ (Follower.runOps (fun (u : Nat) (_ : Nat) => u)
            (Follower.new ⟨0, 0⟩ : Follower Nat Nat) [FOp.deliver 5 3]).fired,
          e.2.1 ≤ e.2.2)
      ∧ (∀ w ∈ (Follower.runOps (fun (u : Nat) (_ : Nat) => u)
            (Follower.new ⟨0, 0⟩ : Follower Nat Nat) [FOp.deliver 5 3]).waiters,
          (Follower.runOps (fun (u : Nat) (_ : Nat) => u)
            (Follower.new ⟨0, 0⟩ : Follower Nat Nat) [FOp.deliver 5 3]).state.seq < w.2)
      ∧ (∀ e ∈ (Follower.runOps (fun (u : Nat) (_ : Nat) => u)
            (Follower.new ⟨0, 0⟩ : Follower Nat Nat) [FOp.deliver 5 3]).fired,
          e.1 ∉ (Follower.runOps (fun (u : Nat) (_ : Nat) => u)
            (Follower.new ⟨0, 0⟩ : Follower Nat Nat) [FOp.deliver 5 3]).waiters.map
              Prod.fst))
    ∧ ((((Follower.runOps (fun (u : Nat) (_ : Nat) => u)
            (Follower.new ⟨0, 0⟩ : Follower Nat Nat)
            ([FOp.deliver 5 3] ++ [FOp.signal 2])).fired.map (fun e => e.1)).Nodup)
      ∧ ((Follower.runOps (fun (u : Nat) (_ : Nat) => u)
            (Follower.new ⟨0, 0⟩ : Follower Nat Nat) [FOp.deliver 5 3]).nextPulse, 2,
          (Follower.runOps (fun (u : Nat) (_ : Nat) => u)
            (Follower.new ⟨0, 0⟩ : Follower Nat Nat) [FOp.deliver 5 3]).state.seq)
          ∈ (Follower.runOps (fun (u : Nat) (_ : Nat) => u)
              (Follower.new ⟨0, 0⟩ : Follower Nat Nat)
              ([FOp.deliver 5 3] ++ [FOp.signal 2])).fired)) :=
  ⟨by decide, c3_signal_at_waiters (fun (u : Nat) (_ : Nat) => u) ⟨0, 0⟩
    [FOp.deliver 5 3] 2 (by decide)⟩

-- C10: the double buffer.  No implementation is present under src/, so the
-- component is modelled from the specification.

/-- Modelled from the spec: the double buffer owns two state slots and one
atomic "active slot" flag; `src/` contains no double-buffer implementation,
so the structure follows the spec's data model (§ "Double buffer"). -/
structure DoubleBuf (S : Type) where
  slot0 : S
  slot1 : S
  active : Bool
deriving DecidableEq, Repr

/-- Modelled from the spec: `read()` returns a read-locked view of whichever
slot is currently active. -/
def DoubleBuf.read (b : DoubleBuf S) : S :=
  if b.active then b.slot1 else b.slot0

/-- Modelled from the spec: write-lock and mutate the currently inactive
slot.  The per-slot write lock makes the mutation atomic with respect to
readers, so it is modelled as one atomic step. -/
def DoubleBuf.writeInactive (app : U → S → S) (u : U) (b : DoubleBuf S) : DoubleBuf S :=
  if b.active then { b with slot0 := app u b.slot0 } else { b with slot1 := app u b.slot1 }

/-- Modelled from the spec: atomically flip which slot is active. -/
def DoubleBuf.flip (b : DoubleBuf S) : DoubleBuf S :=
  { b with active := !b.active }

/-- Modelled from the spec: `apply(update)` mutates the inactive slot, flips
the active flag, then mutates the formerly active (now inactive) slot with
the same update. -/
def DoubleBuf.apply (app : U → S → S) (u : U) (b : DoubleBuf S) : DoubleBuf S :=
  DoubleBuf.writeInactive app u (DoubleBuf.flip (DoubleBuf.writeInactive app u b))

/-- C10: starting from the steady-state invariant that both slots agree,
`apply(update)` performs mutate-inactive, flip, mutate-formerly-active, after
which both slots converge to the updated value; a read taken between any two
of the atomic steps (slot mutations are atomic under the per-slot write lock)
observes either the fully-pre-update value or the fully-post-update value,
never a partially-applied one: before the flip it reads the untouched active
slot, after the flip it reads the already-fully-updated slot. -/
theorem c10_double_buffer (app : U → S → S) (u : U) (b : DoubleBuf S)
    (h : b.slot0 = b.slot1) :
    DoubleBuf.apply app u b
        = DoubleBuf.writeInactive app u (DoubleBuf.flip (DoubleBuf.writeInactive app u b))
    ∧ (DoubleBuf.apply app u b).slot0 = app u b.read
    ∧ (DoubleBuf.apply app u b).slot1 = app u b.read
    ∧ (DoubleBuf.writeInactive app u b).read = b.read
    ∧ (DoubleBuf.flip (DoubleBuf.writeInactive app u b)).read = app u b.read
    ∧ (DoubleBuf.apply app u b).read = app u b.read := by
  rcases b with ⟨s0, s1, a⟩
  simp only at h
  subst h
  cases a with
  | false => exact ⟨rfl, rfl, rfl, rfl, rfl, rfl⟩
  | true => exact ⟨rfl, rfl, rfl, rfl, rfl, rfl⟩

/-- C10 witness: the double-buffer statement evaluated on the concrete
buffer holding 0 in both slots, updated by overwriting with 5. -/
theorem c10_double_buffer_witness :
    ((⟨0, 0, false⟩ : DoubleBuf Nat).slot0 = (⟨0, 0, false⟩ : DoubleBuf Nat).slot1)
    ∧ (DoubleBuf.apply (fun (u : Nat) (_ : Nat) => u) 5 (⟨0, 0, false⟩ : DoubleBuf Nat)
        = DoubleBuf.writeInactive (fun (u : Nat) (_ : Nat) => u) 5
            (DoubleBuf.flip (DoubleBuf.writeInactive (fun (u : Nat) (_ : Nat) => u) 5
              (⟨0, 0, false⟩ : DoubleBuf Nat)))
    ∧ (DoubleBuf.apply (fun (u : Nat) (_ : Nat) => u) 5
        (⟨0, 0, false⟩ : DoubleBuf Nat)).slot0
        = (fun (u : Nat) (_ : Nat) => u) 5 (⟨0, 0, false⟩ : DoubleBuf Nat).read
    ∧ (DoubleBuf.apply (fun (u : Nat) (_ : Nat) => u) 5
        (⟨0, 0, false⟩ : DoubleBuf Nat)).slot1
        = (fun (u : Nat) (_ : Nat) => u) 5 (⟨0, 0, false⟩ : DoubleBuf Nat).read
    ∧ (DoubleBuf.writeInactive (fun (u : Nat) (_ : Nat) => u) 5
        (⟨0, 0, false⟩ : DoubleBuf Nat)).read = (⟨0, 0, false⟩ : DoubleBuf Nat).read
    ∧ (DoubleBuf.flip (DoubleBuf.writeInactive (fun (u : Nat) (_ : Nat) => u) 5
        (⟨0, 0, false⟩ : DoubleBuf Nat))).read
        = (fun (u : Nat) (_ : Nat) => u) 5 (⟨0, 0, false⟩ : DoubleBuf Nat).read
    ∧ (DoubleBuf.apply (fun (u : Nat) (_ : Nat) => u) 5
        (⟨0, 0, false⟩ : DoubleBuf Nat)).read
        = (fun (u : Nat) (_ : Nat) => u) 5 (⟨0, 0, false⟩ : DoubleBuf Nat).read) :=
  ⟨rfl, c10_double_buffer (fun (u : Nat) (_ : Nat) => u) 5 ⟨0, 0, false⟩ rfl⟩

end Lf
